import Mathlib

/-!
# Verification of the OpenClaw RLM bridge (`src/rlm_bridge.py`)

A shallow embedding, in Lean 4, of the pure core of `rlm_bridge.py`:

* the JSONL transcript parser (`parse_jsonl_session_content`),
* the char-budgeted session assembler (`_assemble_session_parts`),
* timestamp resolution for session ordering (`_parse_timestamp_like` and the
  date formatting step of `load_sessions`),
* the retry / rate-limit / re-raise protocol of `run_rlm`,
* static model pricing resolution and cost estimation
  (`_resolve_model_pricing`, `estimate_usage_cost`),
* the dated-note loading policy of `load_workspace_sync`.

Python dynamic values are embedded as the inductive `PyVal`; code that can
raise is embedded in `Except PyErr`.  Machine reals (Python floats) are
modelled as rationals: every concrete number these theorems touch is exactly
representable, so no rounding behaviour is relied upon.
-/

/-- Python exception classes that the translated code can raise or catch. -/
inductive PyErr where
  | attributeError
  | typeError
  | valueError
  | overflowError
  | osError
  | permissionError
  | unicodeDecodeError
deriving DecidableEq, Repr

deriving instance DecidableEq for Except

/-- A JSON-decoded Python value (the result of `json.loads` on one line).
Python `bool` is kept separate from numbers but, as in Python, participates
in truthiness and `int()` conversion. -/
inductive PyVal where
  | str : String → PyVal
  | num : ℚ → PyVal
  | bool : Bool → PyVal
  | none : PyVal
  | list : List PyVal → PyVal
  | dict : List (String × PyVal) → PyVal

/-- Python `value == "lit"` for a string literal: true only for an equal
string; values of any other type compare unequal to a string. -/
def isStrEq (v : PyVal) (lit : String) : Bool :=
  match v with
  | .str s => s = lit
  | _ => false

/-- Python truthiness: `bool(value)`. -/
def pyTruthy : PyVal → Bool
  | .str s => !s.isEmpty
  | .num q => q != 0
  | .bool b => b
  | .none => false
  | .list xs => !xs.isEmpty
  | .dict kvs => !kvs.isEmpty

/-- Python `str.lower()` (per-character lowering; the bridge's inputs are
compared against plain ASCII words). -/
def strLower (s : String) : String := String.mk (s.data.map Char.toLower)

/-- Python `str.strip()`: drop whitespace from both ends. -/
def strTrim (s : String) : String :=
  String.mk (((s.data.dropWhile Char.isWhitespace).reverse.dropWhile
    Char.isWhitespace).reverse)

/-- Python `a or b`: `a` when truthy, else `b`. -/
def pyOr (a b : PyVal) : PyVal :=
  if pyTruthy a then a else b

/-- Python `a or b` on strings: the first non-empty operand, else `b`. -/
def strOr (a b : String) : String :=
  if a ≠ "" then a else b

/-- Dictionary lookup, first binding wins (Python dict keys are unique;
the embedding keeps the first occurrence). -/
def dictFind (kvs : List (String × PyVal)) (k : String) : Option PyVal :=
  (kvs.find? (fun kv => kv.1 = k)).map (fun kv => kv.2)

/-- Python `d.get(k)` (default `None`). -/
def dget (kvs : List (String × PyVal)) (k : String) : PyVal :=
  (dictFind kvs k).getD .none

/-- Python `d.get(k, dflt)`. -/
def dgetD (kvs : List (String × PyVal)) (k : String) (dflt : PyVal) : PyVal :=
  (dictFind kvs k).getD dflt

/-- Python `str(value)`.  String values render as themselves — the only case
the bridge's control flow depends on: the rendered value is compared to
plain lowercase words (`"compaction"`, …) or interpolated after a role
check that already guarantees a string.  Composite values render to a
bracketed placeholder (Python's renderings always carry brackets or quotes,
so they never equal those plain words either). -/
def pyStrOf : PyVal → String
  | .str s => s
  | .num q => toString q
  | .bool true => "True"
  | .bool false => "False"
  | .none => "None"
  | .list _ => "[...]"
  | .dict _ => "[dict]"

/-- `_safe_text_from_value` (rlm_bridge.py:139-147): a stripped string, or the
first of the keys `text`/`summary`/`content`/`message` holding a string with
non-empty strip; else `""`. -/
def _safe_text_from_value (value : PyVal) : String :=
  match value with
  | .str s => strTrim s
  | .dict kvs =>
    let tryKey : String → String := fun k =>
      match dget kvs k with
      | .str raw => strTrim raw
      | _ => ""
    strOr (tryKey "text") (strOr (tryKey "summary")
      (strOr (tryKey "content") (tryKey "message")))
  | _ => ""

/-- One step of the text-block loop (rlm_bridge.py:284-288): a `dict` block of
`type == "text"` contributes its stripped `text` field when non-empty; a
non-string `text` field makes `.strip()` raise `AttributeError`; non-dict
blocks are skipped. -/
def blockStep (acc : List String) (block : PyVal) : Except PyErr (List String) :=
  match block with
  | .dict bkvs =>
    if isStrEq (dget bkvs "type") "text" then
      match dgetD bkvs "text" (.str "") with
      | .str t => .ok (if strTrim t ≠ "" then acc ++ [strTrim t] else acc)
      | _ => .error .attributeError
    else .ok acc
  | _ => .ok acc

/-- Per-entry body of the parse loop (rlm_bridge.py:262-291), for one
JSON-decoded line.  Returns the emitted line, if any.  Structural failures
raise exactly where Python would: `.get` on a non-dict raises
`AttributeError`, iterating a non-iterable content raises `TypeError`
(iterating a dict yields its string keys, which are skipped as non-dict
blocks). -/
def parseLine (entry : PyVal) : Except PyErr (Option String) :=
  match entry with
  | .dict kvs =>
    let entry_type := strLower (strTrim (pyStrOf (pyOr (dget kvs "type") (.str ""))))
    if entry_type = "compaction" ∨ entry_type = "branch_summary" then
      let summary_text :=
        strOr (_safe_text_from_value (dget kvs "summary"))
          (strOr (_safe_text_from_value (dget kvs "content"))
            (_safe_text_from_value (dget kvs "message")))
      .ok (if summary_text ≠ "" then some ("[memory-summary]: " ++ summary_text)
           else Option.none)
    else
      match dgetD kvs "message" (.dict []) with
      | .dict mkvs =>
        let role := dgetD mkvs "role" (.str "")
        if isStrEq role "user" || isStrEq role "assistant" then
          let roleS := pyStrOf role
          match dgetD mkvs "content" (.list []) with
          | .str s => .ok (some ("[" ++ roleS ++ "]: " ++ s))
          | .list blocks => do
            let text_parts ← blocks.foldlM blockStep []
            .ok (if text_parts ≠ [] then
                   some ("[" ++ roleS ++ "]: " ++ String.intercalate " " text_parts)
                 else Option.none)
          | .dict _ => .ok Option.none
          | _ => .error .typeError
        else .ok Option.none
      | _ => .error .attributeError
  | _ => .error .attributeError

/-- One iteration of the parse loop over the decoded lines: a line that
failed `json.loads` (`none`) is skipped, a decoded entry appends its
emitted line, if any, to the accumulated `lines`. -/
def parseFoldStep (acc : List String) (oe : Option PyVal) :
    Except PyErr (List String) :=
  match oe with
  | Option.none => pure acc
  | some e => do
    match (← parseLine e) with
    | some l => pure (acc ++ [l])
    | Option.none => pure acc

/-- `parse_jsonl_session_content` (rlm_bridge.py:249-292) over the
JSON-decoded lines of the raw content: an input element is `none` for a
line that failed `json.loads` (skipped), `some entry` otherwise.  Emitted
lines are joined with a newline. -/
def parse_jsonl_session_content (entries : List (Option PyVal)) :
    Except PyErr String := do
  let lines ← entries.foldlM parseFoldStep ([] : List String)
  pure (String.intercalate "\n" lines)

/-! ## Claim-side restatements of the parser contract -/

/-- Text a list-of-blocks content contributes per block, as the parser's text
extraction does: a `dict` block of `type == "text"` whose `text` field is a
string with non-empty strip contributes that strip. -/
def textBlockText (block : PyVal) : Option String :=
  match block with
  | .dict bkvs =>
    if isStrEq (dget bkvs "type") "text" then
      match dgetD bkvs "text" (.str "") with
      | .str t => if strTrim t ≠ "" then some (strTrim t) else Option.none
      | _ => Option.none
    else Option.none
  | _ => Option.none

/-- Whether an entry is a compaction / branch-summary record. -/
def isMemorySummaryEntry (kvs : List (String × PyVal)) : Bool :=
  let entry_type := strLower (strTrim (pyStrOf (pyOr (dget kvs "type") (.str ""))))
  entry_type = "compaction" || entry_type = "branch_summary"

/-- The summary text extracted from a compaction / branch-summary record. -/
def memorySummaryText (kvs : List (String × PyVal)) : String :=
  strOr (_safe_text_from_value (dget kvs "summary"))
    (strOr (_safe_text_from_value (dget kvs "content"))
      (_safe_text_from_value (dget kvs "message")))

/-- Claim C6 as stated: every record whose role is `user` or `assistant` is
emitted as `"[role]: joined-text"`, and every compaction / branch-summary
record is preserved as a `"[memory-summary]"` line — with no non-emptiness
condition on the extracted text. -/
def claimC6StatedLine (entry : PyVal) : Option String :=
  match entry with
  | .dict kvs =>
    if isMemorySummaryEntry kvs then
      some ("[memory-summary]: " ++ memorySummaryText kvs)
    else
      match dgetD kvs "message" (.dict []) with
      | .dict mkvs =>
        match dgetD mkvs "role" (.str "") with
        | .str r =>
          if r = "user" ∨ r = "assistant" then
            let joined :=
              match dgetD mkvs "content" (.list []) with
              | .str s => s
              | .list blocks => String.intercalate " " (blocks.filterMap textBlockText)
              | _ => ""
            some ("[" ++ r ++ "]: " ++ joined)
          else Option.none
        | _ => Option.none
      | _ => Option.none
  | _ => Option.none

/-- The output claim C6, as stated, predicts for a list of decoded lines. -/
def claimC6StatedOutput (entries : List (Option PyVal)) : String :=
  String.intercalate "\n"
    (entries.filterMap (fun oe => oe.bind claimC6StatedLine))

/-- Claim C6 as amended: a `user`/`assistant` record is emitted exactly when
it yields text — inline-string content (emitted verbatim, even empty), or a
block list containing at least one non-empty text block; a compaction /
branch-summary record is emitted exactly when its extracted summary text is
non-empty. -/
def claimC6AmendedLine (entry : PyVal) : Option String :=
  match entry with
  | .dict kvs =>
    if isMemorySummaryEntry kvs then
      if memorySummaryText kvs ≠ "" then
        some ("[memory-summary]: " ++ memorySummaryText kvs)
      else Option.none
    else
      match dgetD kvs "message" (.dict []) with
      | .dict mkvs =>
        match dgetD mkvs "role" (.str "") with
        | .str r =>
          if r = "user" ∨ r = "assistant" then
            match dgetD mkvs "content" (.list []) with
            | .str s => some ("[" ++ r ++ "]: " ++ s)
            | .list blocks =>
              let parts := blocks.filterMap textBlockText
              if parts ≠ [] then
                some ("[" ++ r ++ "]: " ++ String.intercalate " " parts)
              else Option.none
            | _ => Option.none
          else Option.none
        | _ => Option.none
      | _ => Option.none
  | _ => Option.none

/-- The output claim C6, as amended, predicts for a list of decoded lines. -/
def claimC6AmendedOutput (entries : List (Option PyVal)) : String :=
  String.intercalate "\n"
    (entries.filterMap (fun oe => oe.bind claimC6AmendedLine))

/-! ## `_assemble_session_parts` (rlm_bridge.py:347-364) -/

/-- The truncation marker appended to a truncated final part
(rlm_bridge.py:358). -/
def truncationMarker : String := "\n[...truncated due to memory limit]"

/-- The loop of `_assemble_session_parts` (rlm_bridge.py:351-362), with the
`assembled` accumulator made explicit as the returned list and `total_chars`
as an argument.  A part that fits is emitted whole; at the first part that
would overflow, the loop stops — emitting the part truncated to the
remaining budget with the marker appended when that remainder exceeds 1000
characters, else emitting nothing further. -/
def assembleGo (max_chars : Int) (total_chars : Int) : List String → List String
  | [] => []
  | content :: rest =>
    if max_chars ≤ total_chars then []
    else if max_chars < total_chars + content.length then
      let remaining := max_chars - total_chars
      if 1000 < remaining then [content.take remaining.toNat ++ truncationMarker]
      else []
    else content :: assembleGo max_chars (total_chars + content.length) rest

/-- `_assemble_session_parts` (rlm_bridge.py:347-364): join the assembled
parts with blank-line separators, or a sentinel when nothing was emitted. -/
def _assemble_session_parts (parts : List String) (max_chars : Int) : String :=
  let assembled := assembleGo max_chars 0 parts
  if assembled.isEmpty then "[No sessions loaded]"
  else String.intercalate "\n\n" assembled

/-! ## Timestamp resolution (`_parse_timestamp_like`, rlm_bridge.py:150-171) -/

/-- Decimal digits to a natural number. -/
def digitsToNat (cs : List Char) : ℕ :=
  cs.foldl (fun a c => 10 * a + (c.toNat - 48)) 0

/-- Python `float(raw)` on a stripped string, for finite decimal /
scientific literals: `sign? (digits ('.' digits*)? | '.' digits+)
(('e'|'E') sign? digits+)?`, exact as a rational.  Every such literal the
bridge's claims touch (e.g. `"1e20"`) is exactly representable as a 64-bit
float, so exact rational semantics agree with CPython.  Literals outside
this grammar (`inf`, `nan`, underscores, hex) are treated as parse failures;
no claim exercises them. -/
def pyFloatParse (s : String) : Option ℚ :=
  let cs := s.data
  let sgnSplit : Int × List Char :=
    match cs with
    | '+' :: r => (1, r)
    | '-' :: r => (-1, r)
    | r => (1, r)
  let sgn := sgnSplit.1
  let cs1 := sgnSplit.2
  let ip := cs1.takeWhile Char.isDigit
  let cs2 := cs1.dropWhile Char.isDigit
  let fracSplit : List Char × List Char :=
    match cs2 with
    | '.' :: r => (r.takeWhile Char.isDigit, r.dropWhile Char.isDigit)
    | _ => ([], cs2)
  let fp := fracSplit.1
  let cs3 := fracSplit.2
  -- the parsed value is sgn * digits(ip ++ fp) * 10 ^ (exponent - |fp|),
  -- assembled with one `mkRat` so the rational is built from integer
  -- arithmetic alone
  let build : Int → Option ℚ := fun exp10 =>
    let mantissa : Int := sgn * (digitsToNat (ip ++ fp) : Int)
    let totalExp : Int := exp10 - fp.length
    some (if 0 ≤ totalExp then mkRat (mantissa * 10 ^ totalExp.toNat) 1
          else mkRat mantissa (10 ^ (-totalExp).toNat))
  if ip.isEmpty && fp.isEmpty then Option.none
  else
    match cs3 with
    | [] => build 0
    | e :: r =>
      if e = 'e' ∨ e = 'E' then
        let expSplit : Bool × List Char :=
          match r with
          | '+' :: rr => (false, rr)
          | '-' :: rr => (true, rr)
          | rr => (false, rr)
        let ed := expSplit.2.takeWhile Char.isDigit
        let r2 := expSplit.2.dropWhile Char.isDigit
        if ed.isEmpty || !r2.isEmpty then Option.none
        else build (if expSplit.1 then -(digitsToNat ed : Int)
                    else (digitsToNat ed : Int))
      else Option.none

/-- `datetime.fromisoformat(raw.replace("Z", "+00:00")).timestamp()` with
`ValueError` mapped to `None` (rlm_bridge.py:165-169).  External stdlib
behaviour; no claim exercises an ISO date string (claim C2's input takes the
`float()` branch), so the embedding conservatively takes the
`ValueError → None` path for every input reaching it. -/
def isoParseTimestamp (_raw : String) : Option ℚ := Option.none

/-- `_parse_timestamp_like` (rlm_bridge.py:150-171).  Note Python's
`isinstance(value, (int, float))` is true for `bool` as well. -/
def _parse_timestamp_like (value : PyVal) : Option ℚ :=
  match value with
  | .num q => some q
  | .bool b => some (if b then 1 else 0)
  | .str s =>
    let raw := strTrim s
    if raw = "" then Option.none
    else
      match pyFloatParse raw with
      | some q => some q
      | Option.none => isoParseTimestamp raw
  | _ => Option.none

/-- Largest signed 64-bit value: the platform `time_t` range bound. -/
def timeTMax : ℚ := 9223372036854775807

/-- `datetime.fromtimestamp(ts).strftime("%Y-%m-%d %H:%M")`
(rlm_bridge.py:469).  CPython raises `OverflowError` when `ts` falls outside
the platform `time_t` range (observed: `datetime.fromtimestamp(1e20)` raises
`OverflowError: timestamp out of range for platform time_t`); for an
in-range timestamp the rendered date text is abstracted to a placeholder,
since no claim depends on it (an in-range year past 9999 would raise
`ValueError`, equally uncaught by the loader's `except` clause). -/
def datetime_fromtimestamp_fmt (ts : ℚ) : Except PyErr String :=
  if ts < -timeTMax ∨ timeTMax < ts then .error .overflowError
  else .ok "<date>"

/-- The sort-key resolution of `_collect_session_files` (rlm_bridge.py:317-324):
the index metadata timestamp (`updatedAt` / `lastMessageAt` / `timestamp` /
`createdAt` combined with Python `or`) when parsable, else the file mtime. -/
def resolvedSessionTimestamp (meta : List (String × PyVal)) (mtime : ℚ) : ℚ :=
  let indexed_ts := _parse_timestamp_like
    (pyOr (dget meta "updatedAt") (pyOr (dget meta "lastMessageAt")
      (pyOr (dget meta "timestamp") (dget meta "createdAt"))))
  indexed_ts.getD mtime

/-- Per-file outcome of the `load_sessions` loop body for the
date-formatting step. -/
inductive SessionFileOutcome where
  | header (date_str : String)
  | skipped
  | raised (e : PyErr)
deriving DecidableEq, Repr

/-- Which exceptions the per-file
`except (PermissionError, UnicodeDecodeError, OSError)` clause of
`load_sessions` (rlm_bridge.py:480) catches. -/
def caughtByLoadSessions : PyErr → Bool
  | .permissionError => true
  | .unicodeDecodeError => true
  | .osError => true
  | _ => false

/-- The date-formatting step of the `load_sessions` per-file loop
(rlm_bridge.py:455-481) for a session file with index metadata `meta` and
filesystem mtime `mtime`: render the resolved timestamp's date for the
session header; an exception raised there is skipped when the `except`
clause lists it and propagates out of `load_sessions` otherwise. -/
def loadSessionsDateStep (meta : List (String × PyVal)) (mtime : ℚ) :
    SessionFileOutcome :=
  match datetime_fromtimestamp_fmt (resolvedSessionTimestamp meta mtime) with
  | .ok s => .header s
  | .error e => if caughtByLoadSessions e then .skipped else .raised e

/-! ## `run_rlm` (rlm_bridge.py:696-791) -/

/-- Python `needle in hay` on strings. -/
def strContainsSub (hay needle : String) : Bool :=
  (List.range (hay.length + 1)).any
    (fun i => needle.data.isPrefixOf (hay.data.drop i))

/-- `_is_rate_limited_error` (rlm_bridge.py:583-584). -/
def _is_rate_limited_error (error_text : String) : Bool :=
  strContainsSub error_text "429" || strContainsSub error_text "rate limit" ||
    strContainsSub error_text "quota"

/-- The transient markers of `_is_retryable_error` (rlm_bridge.py:588-597). -/
def retryable_markers : List String :=
  ["timeout", "timed out", "connection reset", "temporarily unavailable",
   "temporary", "502", "503", "504"]

/-- `_is_retryable_error` (rlm_bridge.py:587-598). -/
def _is_retryable_error (error_text : String) : Bool :=
  retryable_markers.any (fun m => strContainsSub error_text m)

/-- The outcome of the `rlm.completion` call of one attempt: a response, or
a raised exception rendered to its message text (`str(error)`).  Indexed by
attempt number — each attempt constructs a fresh backend
(rlm_bridge.py:718-754). -/
inductive BackendOutcome where
  | success (response : String)
  | failure (error_text : String)

/-- The terminal outcome of `run_rlm`, restricted to the result fields the
spec claims concern: `response`, `attempts` and `status` for a returned
dict (`status` is the constructor), or the re-raised exception.  The other
returned fields (models used, usage summary, cost estimate, execution time)
are orthogonal bookkeeping. -/
inductive RunResult where
  | ok (response : String) (attempts : ℕ)
  | rateLimited (response : String) (attempts : ℕ)
  | raised (error_text : String)
deriving DecidableEq, Repr

/-- The friendly message substituted for a rate-limited error
(rlm_bridge.py:775). -/
def rateLimitedMessage : String :=
  "Kimi API rate limit reached. Please try again in a few minutes."

/-- The retry loop of `run_rlm` (rlm_bridge.py:713-791), with the recorded
`time.sleep` durations returned alongside the result.  `attempt` is the
value of Python's counter before the iteration increments it, and
`d = max_retries - attempt` (natural subtraction): Python's retry guard
`attempt <= max_retries` — for the incremented counter — holds exactly when
`d > 0`, and the recursive call steps `attempt` up and `d` down. -/
def runRlmLoop (backend : ℕ → BackendOutcome) (retry_backoff_seconds : ℚ) :
    ℕ → ℕ → RunResult × List ℚ
  | attempt, d =>
    let a := attempt + 1
    match backend a with
    | .success resp => (.ok resp a, [])
    | .failure err =>
      let error_text := strLower err
      if _is_rate_limited_error error_text then
        (.rateLimited rateLimitedMessage a, [])
      else
        match d with
        | 0 => (.raised err, [])
        | d' + 1 =>
          if _is_retryable_error error_text then
            let r := runRlmLoop backend retry_backoff_seconds a d'
            (r.1, retry_backoff_seconds * (a : ℚ) :: r.2)
          else (.raised err, [])

/-- `run_rlm` (rlm_bridge.py:696-791): run the retry loop from an attempt
counter of 0 with a retry budget of `max_retries`. -/
def run_rlm (backend : ℕ → BackendOutcome) (max_retries : ℕ)
    (retry_backoff_seconds : ℚ) : RunResult × List ℚ :=
  runRlmLoop backend retry_backoff_seconds 0 max_retries

/-! ## Pricing and cost estimation (rlm_bridge.py:84-89, 616-691) -/

/-- Per-1M-token USD prices of one model. -/
structure Pricing where
  prompt : ℚ
  completion : ℚ
  caching : ℚ
deriving DecidableEq, Repr

/-- `MODEL_PRICING_USD_PER_1M` (rlm_bridge.py:84-89), in dict insertion
order (Python dicts preserve insertion order). -/
def MODEL_PRICING_USD_PER_1M : List (String × Pricing) :=
  [("kimi-k2.5", ⟨6/10, 3, 1/10⟩),
   ("kimi-k2-turbo-preview", ⟨115/100, 8, 15/100⟩),
   ("kimi-k2-turbo", ⟨115/100, 8, 15/100⟩),
   ("kimi-k2-thinking-turbo", ⟨115/100, 8, 15/100⟩)]

/-- Python `s.startswith(p)`. -/
def pyStartsWith (s p : String) : Bool := p.data.isPrefixOf s.data

/-- `_resolve_model_pricing` (rlm_bridge.py:616-624): exact key first, else
the first key in table order that is a prefix of the model name. -/
def _resolve_model_pricing (model_name : String) : Option Pricing :=
  match MODEL_PRICING_USD_PER_1M.find? (fun kv => kv.1 = model_name) with
  | some kv => some kv.2
  | Option.none =>
    (MODEL_PRICING_USD_PER_1M.find? (fun kv => pyStartsWith model_name kv.1)).map
      (fun kv => kv.2)

/-- Pricing resolution as claim C8 words it: exact name match first, else
the longest known-name-prefix match, else nothing. -/
def resolvePricingByLongestKnownName (model_name : String) : Option Pricing :=
  match MODEL_PRICING_USD_PER_1M.find? (fun kv => kv.1 = model_name) with
  | some kv => some kv.2
  | Option.none =>
    ((MODEL_PRICING_USD_PER_1M.filter (fun kv => pyStartsWith model_name kv.1)).foldl
      (fun best kv =>
        match best with
        | Option.none => some kv
        | some b => if b.1.length < kv.1.length then some kv else best)
      Option.none).map (fun kv => kv.2)

/-- Python `int(s)` for a string: an optionally signed run of digits
(surrounding whitespace allowed), else `ValueError`. -/
def pyIntParse (s : String) : Option Int :=
  let cs := (strTrim s).data
  let sgnSplit : Int × List Char :=
    match cs with
    | '+' :: r => (1, r)
    | '-' :: r => (-1, r)
    | r => (1, r)
  let ds := sgnSplit.2
  if !ds.isEmpty && ds.all Char.isDigit then some (sgnSplit.1 * digitsToNat ds)
  else Option.none

/-- Python `int(value)` as applied to the token counters
(rlm_bridge.py:646-657): ints/floats truncate toward zero, bools convert to
0/1, integer-literal strings parse, anything else raises. -/
def pyInt (v : PyVal) : Except PyErr Int :=
  match v with
  | .num q => .ok (q.num.tdiv (q.den : Int))
  | .bool b => .ok (if b then 1 else 0)
  | .str s =>
    match pyIntParse s with
    | some n => .ok n
    | Option.none => .error .valueError
  | _ => .error .typeError

/-- The input-token `or`-chain of rlm_bridge.py:646-651. -/
def input_tokens_val (stats : List (String × PyVal)) : PyVal :=
  pyOr (dget stats "total_input_tokens")
    (pyOr (dget stats "prompt_tokens")
      (pyOr (dget stats "input_tokens") (.num 0)))

/-- The output-token `or`-chain of rlm_bridge.py:652-657. -/
def output_tokens_val (stats : List (String × PyVal)) : PyVal :=
  pyOr (dget stats "total_output_tokens")
    (pyOr (dget stats "completion_tokens")
      (pyOr (dget stats "output_tokens") (.num 0)))

/-- Round-half-even to an integer (Python's `round`). -/
def roundHalfEven (q : ℚ) : Int :=
  let f := ⌊q⌋
  if q - f < 1/2 then f
  else if (1:ℚ)/2 < q - f then f + 1
  else if f % 2 = 0 then f else f + 1

/-- Python `round(x, 6)` modelled as exact rational round-half-even to six
decimal places.  No claim depends on a value where CPython's
float-representation wobble would differ from the exact rounding. -/
def round6 (q : ℚ) : ℚ := (roundHalfEven (q * 1000000) : ℚ) / 1000000

/-- One `by_model` entry of the estimate (rlm_bridge.py:661-681). -/
structure ModelCost where
  input_tokens : Int
  output_tokens : Int
  usd_per_1m_prompt : Option ℚ
  usd_per_1m_completion : Option ℚ
  estimated_usd : ℚ
  pricing_source : String
deriving DecidableEq, Repr

/-- The per-model body of the `estimate_usage_cost` loop
(rlm_bridge.py:642-682): `none` when the stats value is not a dict
(skipped), else the `by_model` entry together with the model's contribution
to the running total (an unknown model contributes an entry with zero
estimate and nothing to the total). -/
def modelEntry (model_name : String) (stats : PyVal) :
    Except PyErr (Option (ModelCost × ℚ)) :=
  match stats with
  | .dict skvs => do
    let input_tokens ← pyInt (input_tokens_val skvs)
    let output_tokens ← pyInt (output_tokens_val skvs)
    match _resolve_model_pricing model_name with
    | Option.none =>
      .ok (some (⟨input_tokens, output_tokens, Option.none, Option.none, 0,
        "unknown_model"⟩, 0))
    | some pricing =>
      let model_cost := (input_tokens : ℚ) / 1000000 * pricing.prompt
        + (output_tokens : ℚ) / 1000000 * pricing.completion
      .ok (some (⟨input_tokens, output_tokens, some pricing.prompt,
        some pricing.completion, round6 model_cost,
        "moonshot_docs_forum_feb_2026"⟩, model_cost))
  | _ => .ok Option.none

/-- The estimate's result: `{}` for no usable usage, else the rounded total
and the per-model breakdown.  The constant metadata field
`estimated_input_pricing_mode` of the returned dict is elided. -/
inductive EstimateResult where
  | empty
  | result (total_estimated_usd : ℚ) (by_model : List (String × ModelCost))
deriving DecidableEq, Repr

/-- One iteration of the `estimate_usage_cost` loop over the per-model
usage entries: extend the `per_model` list and `total_usd` accumulator with
the entry's contribution, or skip a non-dict stats value. -/
def estStep (acc : List (String × ModelCost) × ℚ) (kv : String × PyVal) :
    Except PyErr (List (String × ModelCost) × ℚ) := do
  match (← modelEntry kv.1 kv.2) with
  | some (mc, contrib) => pure (acc.1 ++ [(kv.1, mc)], acc.2 + contrib)
  | Option.none => pure acc

/-- `estimate_usage_cost` (rlm_bridge.py:627-691). -/
def estimate_usage_cost (usage_summary : PyVal) : Except PyErr EstimateResult := do
  let model_usage ←
    (if pyTruthy usage_summary then
      match usage_summary with
      | .dict kvs => Except.ok (dgetD kvs "model_usage_summaries" (.dict []))
      | _ => Except.error PyErr.attributeError
    else Except.ok (.dict []))
  match model_usage with
  | .dict mu => do
    let acc ← mu.foldlM estStep (([], 0) : List (String × ModelCost) × ℚ)
    if acc.1.isEmpty then pure .empty
    else pure (.result (round6 acc.2) acc.1)
  | _ => pure .empty

/-! ## `load_workspace_sync` (rlm_bridge.py:524-573) -/

/-- One dated note's emitted part (rlm_bridge.py:568): the file name is the
stem with its `.md` suffix. -/
def dailyPart (stem content : String) : String :=
  "=== DAILY:" ++ stem ++ ".md ===\n" ++ content

/-- The dated-note loop of `load_workspace_sync` (rlm_bridge.py:561-571):
empty or short notes are skipped; a note that would push the cumulative
character count over the daily budget stops the loop.  Unreadable notes
(`PermissionError`/`OSError`, skipped by the `except`) are represented as
absent from the input. -/
def dailyGo (daily_chars_limit : Int) : Int → List (String × String) → List String
  | _, [] => []
  | daily_chars, (stem, content) :: rest =>
    if strTrim content = "" ∨ content.length < 20 then
      dailyGo daily_chars_limit daily_chars rest
    else if daily_chars_limit < daily_chars + content.length then []
    else dailyPart stem content ::
      dailyGo daily_chars_limit (daily_chars + content.length) rest

/-- The `memory/*.md` files sorted by file stem, largest (newest date)
first (rlm_bridge.py:559).  Python's `sorted(..., key=stem, reverse=True)`
is a stable descending sort, as is `mergeSort` with this comparator. -/
def sortByStemDesc (files : List (String × String)) : List (String × String) :=
  files.mergeSort (fun a b => b.1 ≤ a.1)

/-- `load_workspace_sync` (rlm_bridge.py:524-573).  The fixed named
workspace files (MEMORY.md / SOUL.md / …, lines 530-555: filesystem alias
resolution and 50k-char caps) are supplied as the already-loaded
`named_parts`; the `memory/` directory is supplied as (stem, content)
pairs.  Only the 30 newest-by-stem dated notes are considered
(`daily_files[:30]`), then char-budgeted. -/
def load_workspace_sync (named_parts : List String)
    (memory_files : List (String × String)) (daily_chars_limit : Int) : String :=
  let daily_files := sortByStemDesc memory_files
  String.intercalate "\n\n"
    (named_parts ++ dailyGo daily_chars_limit 0 (daily_files.take 30))

/-! ## Theorems -/

/-- Total character count of a list of parts. -/
def lensSum (xs : List String) : Int := ((xs.map String.length).sum : ℕ)

theorem lensSum_nil : lensSum [] = 0 := rfl

theorem lensSum_cons (a : String) (l : List String) :
    lensSum (a :: l) = (a.length : Int) + lensSum l := by
  simp [lensSum]

/-- Budget invariant of the assembler loop: starting from `total` already
consumed characters (with `total ≤ max_chars`), the emitted list is a fully
consumed prefix of the parts — possibly followed by a truncation of the
next part — and the characters drawn from the input parts never push
`total` past `max_chars`. -/
theorem assembleGo_budget (max_chars : Int) :
    ∀ (parts : List String) (total : Int), total ≤ max_chars →
      (∃ k, assembleGo max_chars total parts = parts.take k ∧
         total + lensSum (parts.take k) ≤ max_chars) ∨
      (∃ k r, k < parts.length ∧
         assembleGo max_chars total parts =
           parts.take k ++ [(parts.getD k "").take r ++ truncationMarker] ∧
         total + lensSum (parts.take k) + (r : Int) ≤ max_chars) := by
  intro parts
  induction parts with
  | nil =>
    intro total htot
    exact Or.inl ⟨0, by simp [assembleGo], by simpa [lensSum] using htot⟩
  | cons c rest ih =>
    intro total htot
    by_cases h1 : max_chars ≤ total
    · refine Or.inl ⟨0, ?_, ?_⟩
      · simp [assembleGo, h1]
      · simpa [lensSum] using htot
    · by_cases h2 : max_chars < total + (c.length : Int)
      · by_cases h3 : (1000 : Int) < max_chars - total
        · refine Or.inr ⟨0, (max_chars - total).toNat, by simp, ?_, ?_⟩
          · simp [assembleGo, h1, h2, h3]
          · have hnn : (0 : Int) ≤ max_chars - total := by omega
            rw [Int.toNat_of_nonneg hnn]
            simp only [List.take_zero, lensSum_nil]
            omega
        · refine Or.inl ⟨0, ?_, ?_⟩
          · simp [assembleGo, h1, h2, h3]
          · simpa [lensSum] using le_of_lt (lt_of_not_le h1)
      · have htot' : total + (c.length : Int) ≤ max_chars := by omega
        rcases ih (total + c.length) htot' with ⟨k, hk, hsum⟩ | ⟨k, r, hklt, hk, hsum⟩
        · refine Or.inl ⟨k + 1, ?_, ?_⟩
          · simp [assembleGo, h1, h2, hk]
          · rw [List.take_succ_cons, lensSum_cons]
            omega
        · refine Or.inr ⟨k + 1, r, by simpa using Nat.succ_lt_succ hklt, ?_, ?_⟩
          · simp [assembleGo, h1, h2, hk]
          · rw [List.take_succ_cons, lensSum_cons]
            omega

/-- Claim C1, as stated, is FALSE on the code: with parts `["a", "b"]` and
a budget of `maxChars = 2` both parts fit the content budget, and the
`"\n\n"` separator joining them pushes the assembled context string to 4
characters, exceeding `maxChars`. -/
theorem c1_counterexample :
    _assemble_session_parts ["a", "b"] 2 = "a\n\nb" ∧
      ¬((_assemble_session_parts ["a", "b"] 2).length ≤ 2) := by
  decide

/-- Claim C1 amended: the character count that `_assemble_session_parts`
draws from the input parts — every fully emitted part plus the truncated
content of a truncated final part, excluding the appended truncation
marker and the `"\n\n"` separators inserted between emitted parts — never
exceeds `maxChars` (taken non-negative): the emitted list is `parts.take k`
with `lensSum ≤ maxChars`, or additionally carries a truncation of part
`k` drawing `r` further characters with the total still `≤ maxChars`. -/
theorem c1_amended_budget (parts : List String) (max_chars : Int)
    (h : 0 ≤ max_chars) :
    (∃ k, assembleGo max_chars 0 parts = parts.take k ∧
       lensSum (parts.take k) ≤ max_chars) ∨
    (∃ k r, k < parts.length ∧
       assembleGo max_chars 0 parts =
         parts.take k ++ [(parts.getD k "").take r ++ truncationMarker] ∧
       lensSum (parts.take k) + (r : Int) ≤ max_chars) := by
  rcases assembleGo_budget max_chars parts 0 h with ⟨k, hk, hsum⟩ | ⟨k, r, hklt, hk, hsum⟩
  · exact Or.inl ⟨k, hk, by omega⟩
  · exact Or.inr ⟨k, r, hklt, hk, by omega⟩

theorem c1_amended_budget_witness :
    (0 : Int) ≤ 5 ∧
      ((∃ k, assembleGo 5 0 ["ab"] = (["ab"] : List String).take k ∧
          lensSum ((["ab"] : List String).take k) ≤ 5) ∨
       (∃ k r, k < (["ab"] : List String).length ∧
          assembleGo 5 0 ["ab"] =
            (["ab"] : List String).take k ++
              [((["ab"] : List String).getD k "").take r ++ truncationMarker] ∧
          lensSum ((["ab"] : List String).take k) + (r : Int) ≤ 5)) :=
  ⟨by decide, c1_amended_budget ["ab"] 5 (by decide)⟩

/-- Claim C7: at the first part whose length overflows the remaining
budget (`total` being the character count of the preceding, fully emitted
parts), `_assemble_session_parts`'s loop emits that part truncated to the
unconsumed remainder with the truncation marker appended exactly when that
remainder exceeds 1000 characters, and otherwise drops the part — and
everything after it — entirely. -/
theorem c7_truncate_or_drop (content : String) (rest : List String)
    (max_chars total : Int) (hlt : total < max_chars)
    (hover : max_chars < total + (content.length : Int)) :
    ((1000 : Int) < max_chars - total →
       assembleGo max_chars total (content :: rest) =
         [content.take (max_chars - total).toNat ++ truncationMarker]) ∧
    (max_chars - total ≤ 1000 →
       assembleGo max_chars total (content :: rest) = []) := by
  constructor
  · intro h3
    simp [assembleGo, not_le.mpr hlt, hover, h3]
  · intro h3
    simp [assembleGo, not_le.mpr hlt, hover, not_lt.mpr h3]

theorem c7_truncate_or_drop_witness :
    ((0 : Int) < 5 ∧ (5 : Int) < 0 + (("abcdefgh" : String).length : Int)) ∧
      assembleGo 5 0 ["abcdefgh"] = [] :=
  ⟨⟨by decide, by decide⟩,
    (c7_truncate_or_drop "abcdefgh" [] 5 0 (by decide) (by decide)).2 (by decide)⟩

/-- Claim C2 (the code contradicts it — and the repository's own test
`test_load_sessions_handles_overflow_timestamp_from_index`, which expects a
`DATE:unknown-date` sentinel the source never produces): an index entry
whose `updatedAt` is the numeric-looking overflow string `"1e20"` parses to
the float value `1e20` — no "unknown" sentinel — becomes the session's
resolved (and sort-ordering) timestamp, and the date-formatting step of
`load_sessions` then raises `OverflowError`, which the loader's
`except (PermissionError, UnicodeDecodeError, OSError)` clause does not
catch, crashing session loading. -/
theorem c2_overflow_timestamp_raises :
    _parse_timestamp_like (.str "1e20") = some ((100000000000000000000 : ℚ)) ∧
    resolvedSessionTimestamp
      [("id", .str "session_overflow"), ("updatedAt", .str "1e20")] 0 =
        (100000000000000000000 : ℚ) ∧
    loadSessionsDateStep
      [("id", .str "session_overflow"), ("updatedAt", .str "1e20")] 0 =
        .raised .overflowError := by
  decide

/-- Claim C3: on a transient (retry-eligible, non-rate-limited) failure the
loop retries — while Python's `attempt <= max_retries`, i.e. while the
remaining retry budget is positive — prepending one sleep of
`backoffBase * attemptNumber` (linear backoff) to the recorded sleeps of
the continuation (first conjunct); in particular a `"Connection timeout"`
failure on the first attempt with `maxRetries = 1` followed by a success
returns attempt count 2 with the single sleep `backoffBase * 1` (second
conjunct). -/
theorem c3_transient_retry_backoff :
    (∀ (backend : ℕ → BackendOutcome) (backoff : ℚ) (attempt d : ℕ) (e : String),
       backend (attempt + 1) = .failure e →
       _is_rate_limited_error (strLower e) = false →
       _is_retryable_error (strLower e) = true →
       runRlmLoop backend backoff attempt (d + 1) =
         ((runRlmLoop backend backoff (attempt + 1) d).1,
          backoff * ((attempt + 1 : ℕ) : ℚ) ::
            (runRlmLoop backend backoff (attempt + 1) d).2)) ∧
    (∀ (resp : String) (backoff : ℚ),
       run_rlm (fun n => if n = 1 then .failure "Connection timeout"
                         else .success resp) 1 backoff =
         (.ok resp 2, [backoff * 1])) := by
  constructor
  · intro backend backoff attempt d e hb hrl hrt
    rw [runRlmLoop]
    simp only [hb, hrl, hrt]
    simp
  · intro resp backoff
    have h1 : _is_rate_limited_error (strLower "Connection timeout") = false := by
      decide
    have h2 : _is_retryable_error (strLower "Connection timeout") = true := by
      decide
    simp [run_rlm, runRlmLoop, h1, h2]

theorem c3_transient_retry_backoff_witness :
    run_rlm (fun n => if n = 1 then .failure "Connection timeout"
                      else .success "done") 1 2 = (.ok "done" 2, [2 * 1]) :=
  c3_transient_retry_backoff.2 "done" 2

/-- Claim C4: a backend failure carrying a rate-limit marker makes
`run_rlm` return immediately — whatever retry budget remains — with the
terminal `rate_limited` status, the attempt count of the failing attempt,
an empty sleep record, and the fixed friendly message substituted for the
raw error text (first conjunct); a first-attempt rate-limit failure
returns attempt count 1 (second conjunct). -/
theorem c4_rate_limited_terminal :
    (∀ (backend : ℕ → BackendOutcome) (backoff : ℚ) (attempt d : ℕ) (e : String),
       backend (attempt + 1) = .failure e →
       _is_rate_limited_error (strLower e) = true →
       runRlmLoop backend backoff attempt d =
         (.rateLimited rateLimitedMessage (attempt + 1), [])) ∧
    (∀ (backend : ℕ → BackendOutcome) (max_retries : ℕ) (backoff : ℚ) (e : String),
       backend 1 = .failure e →
       _is_rate_limited_error (strLower e) = true →
       run_rlm backend max_retries backoff =
         (.rateLimited rateLimitedMessage 1, [])) := by
  constructor
  · intro backend backoff attempt d e hb hrl
    rw [runRlmLoop]
    simp [hb, hrl]
  · intro backend max_retries backoff e hb hrl
    rw [run_rlm, runRlmLoop]
    simp [hb, hrl]

theorem c4_rate_limited_terminal_witness :
    run_rlm (fun _ => .failure "Error 429: rate limit exceeded") 3 2 =
      (.rateLimited rateLimitedMessage 1, []) :=
  c4_rate_limited_terminal.2 (fun _ => .failure "Error 429: rate limit exceeded")
    3 2 "Error 429: rate limit exceeded" rfl (by decide)

/-- Claim C5: a backend failure that is neither rate-limited nor an
eligible transient error — not retryable at all, or transient with the
retry budget exhausted (Python's `attempt > max_retries`) — is re-raised
unchanged (the original, un-lowercased message), with no sleep (first
conjunct); in particular any such error on the first attempt with
`maxRetries = 0` propagates unchanged (second conjunct). -/
theorem c5_reraise_unchanged :
    (∀ (backend : ℕ → BackendOutcome) (backoff : ℚ) (attempt d : ℕ) (e : String),
       backend (attempt + 1) = .failure e →
       _is_rate_limited_error (strLower e) = false →
       (_is_retryable_error (strLower e) = false ∨ d = 0) →
       runRlmLoop backend backoff attempt d = (.raised e, [])) ∧
    (∀ (backend : ℕ → BackendOutcome) (backoff : ℚ) (e : String),
       backend 1 = .failure e →
       _is_rate_limited_error (strLower e) = false →
       run_rlm backend 0 backoff = (.raised e, [])) := by
  constructor
  · intro backend backoff attempt d e hb hrl hcase
    rw [runRlmLoop]
    rcases hcase with hrt | hd
    · cases d <;> simp [hb, hrl, hrt]
    · subst hd
      simp [hb, hrl]
  · intro backend backoff e hb hrl
    rw [run_rlm, runRlmLoop]
    simp [hb, hrl]

theorem c5_reraise_unchanged_witness :
    run_rlm (fun _ => .failure "Model unavailable") 0 2 =
      (.raised "Model unavailable", []) :=
  c5_reraise_unchanged.2 (fun _ => .failure "Model unavailable") 2
    "Model unavailable" rfl (by decide)

/-- A successful block step appends exactly the block's text contribution. -/
theorem blockStep_ok_shape (acc : List String) (b : PyVal) (ps : List String)
    (h : blockStep acc b = .ok ps) :
    ps = acc ++ (textBlockText b).toList := by
  cases b with
  | dict bkvs =>
    by_cases ht : isStrEq (dget bkvs "type") "text"
    · cases htx : dgetD bkvs "text" (.str "") with
      | str t =>
        by_cases hne : strTrim t ≠ ""
        · simp only [blockStep, ht, htx, hne, if_true, if_pos,
            Except.ok.injEq] at h
          simp [textBlockText, ht, htx, hne, ← h]
        · simp only [blockStep, ht, htx, hne, if_true, if_false,
            Except.ok.injEq] at h
          simp [textBlockText, ht, htx, hne, ← h]
      | num q => simp [blockStep, ht, htx] at h
      | bool c => simp [blockStep, ht, htx] at h
      | none => simp [blockStep, ht, htx] at h
      | list l => simp [blockStep, ht, htx] at h
      | dict d => simp [blockStep, ht, htx] at h
    · simp only [blockStep, ht, if_false, Bool.false_eq_true,
        Except.ok.injEq] at h
      simp [textBlockText, ht, ← h]
  | str s =>
    simp only [blockStep, Except.ok.injEq] at h
    simp [textBlockText, ← h]
  | num q =>
    simp only [blockStep, Except.ok.injEq] at h
    simp [textBlockText, ← h]
  | bool c =>
    simp only [blockStep, Except.ok.injEq] at h
    simp [textBlockText, ← h]
  | none =>
    simp only [blockStep, Except.ok.injEq] at h
    simp [textBlockText, ← h]
  | list l =>
    simp only [blockStep, Except.ok.injEq] at h
    simp [textBlockText, ← h]

/-- A successful run of the text-block loop collects exactly the per-block
text contributions, in order. -/
theorem blockFold_ok (blocks : List PyVal) :
    ∀ (acc ps : List String), blocks.foldlM blockStep acc = .ok ps →
      ps = acc ++ blocks.filterMap textBlockText := by
  induction blocks with
  | nil =>
    intro acc ps h
    simp only [List.foldlM_nil] at h
    cases h
    simp
  | cons b bs ih =>
    intro acc ps h
    rw [List.foldlM_cons] at h
    cases hb : blockStep acc b with
    | error e =>
      rw [hb] at h
      simp [Bind.bind, Except.bind] at h
    | ok acc' =>
      rw [hb] at h
      have h' : bs.foldlM blockStep acc' = .ok ps := h
      have hshape := blockStep_ok_shape acc b acc' hb
      rw [ih acc' ps h', hshape]
      cases hfb : textBlockText b <;> simp [List.filterMap_cons, hfb]

/-- A successful `parseLine` emits exactly the line the amended claim C6
predicts for that entry. -/
theorem parseLine_ok (e : PyVal) (r : Option String)
    (h : parseLine e = .ok r) : r = claimC6AmendedLine e := by
  cases e with
  | str s => simp [parseLine] at h
  | num q => simp [parseLine] at h
  | bool b => simp [parseLine] at h
  | none => simp [parseLine] at h
  | list l => simp [parseLine] at h
  | dict kvs =>
    by_cases hc :
        strLower (strTrim (pyStrOf (pyOr (dget kvs "type") (.str "")))) = "compaction" ∨
        strLower (strTrim (pyStrOf (pyOr (dget kvs "type") (.str "")))) = "branch_summary"
    · have hms : isMemorySummaryEntry kvs = true := by
        rcases hc with hc1 | hc1 <;> simp [isMemorySummaryEntry, hc1]
      simp only [parseLine] at h
      rw [if_pos hc] at h
      simp only [Except.ok.injEq] at h
      simp [claimC6AmendedLine, hms, memorySummaryText, ← h]
    · have hms : isMemorySummaryEntry kvs = false := by
        simpa [isMemorySummaryEntry] using not_or.mp hc
      simp only [parseLine] at h
      rw [if_neg hc] at h
      cases hm : dgetD kvs "message" (.dict []) with
      | dict mkvs =>
        rw [hm] at h
        simp only at h
        cases hrv : dgetD mkvs "role" (.str "") with
        | str rs =>
          rw [hrv] at h
          by_cases hrole : rs = "user" ∨ rs = "assistant"
          · have hg : (isStrEq (.str rs) "user" ||
                isStrEq (.str rs) "assistant") = true := by
              rcases hrole with h1 | h1 <;> simp [isStrEq, h1]
            rw [if_pos hg] at h
            cases hct : dgetD mkvs "content" (.list []) with
            | str s =>
              rw [hct] at h
              simp only [Except.ok.injEq] at h
              rcases hrole with h1 | h1 <;> subst h1 <;>
                simp [claimC6AmendedLine, hms, hm, hrv, hct, pyStrOf, ← h]
            | list blocks =>
              rw [hct] at h
              simp only [Bind.bind, Except.bind] at h
              cases hf : blocks.foldlM blockStep [] with
              | error err => rw [hf] at h; simp at h
              | ok ps =>
                rw [hf] at h
                simp only [Except.ok.injEq] at h
                have hps : ps = blocks.filterMap textBlockText := by
                  simpa using blockFold_ok blocks [] ps hf
                rcases hrole with h1 | h1 <;> subst h1 <;>
                  simp [claimC6AmendedLine, hms, hm, hrv, hct, pyStrOf, ← h, hps]
            | dict ckvs =>
              rw [hct] at h
              simp only [Except.ok.injEq] at h
              rcases hrole with h1 | h1 <;> subst h1 <;>
                simp [claimC6AmendedLine, hms, hm, hrv, hct, ← h]
            | num q => rw [hct] at h; simp at h
            | bool b => rw [hct] at h; simp at h
            | none => rw [hct] at h; simp at h
          · have hg : (isStrEq (.str rs) "user" ||
                isStrEq (.str rs) "assistant") = false := by
              have hns := not_or.mp hrole
              simp [isStrEq, hns.1, hns.2]
            rw [if_neg (by simp [hg])] at h
            simp only [Except.ok.injEq] at h
            simp [claimC6AmendedLine, hms, hm, hrv, hrole, ← h]
        | num q =>
          rw [hrv] at h
          rw [if_neg (by simp [isStrEq])] at h
          simp only [Except.ok.injEq] at h
          simp [claimC6AmendedLine, hms, hm, hrv, ← h]
        | bool b =>
          rw [hrv] at h
          rw [if_neg (by simp [isStrEq])] at h
          simp only [Except.ok.injEq] at h
          simp [claimC6AmendedLine, hms, hm, hrv, ← h]
        | none =>
          rw [hrv] at h
          rw [if_neg (by simp [isStrEq])] at h
          simp only [Except.ok.injEq] at h
          simp [claimC6AmendedLine, hms, hm, hrv, ← h]
        | list l =>
          rw [hrv] at h
          rw [if_neg (by simp [isStrEq])] at h
          simp only [Except.ok.injEq] at h
          simp [claimC6AmendedLine, hms, hm, hrv, ← h]
        | dict dkvs =>
          rw [hrv] at h
          rw [if_neg (by simp [isStrEq])] at h
          simp only [Except.ok.injEq] at h
          simp [claimC6AmendedLine, hms, hm, hrv, ← h]
      | str s => rw [hm] at h; simp at h
      | num q => rw [hm] at h; simp at h
      | bool b => rw [hm] at h; simp at h
      | none => rw [hm] at h; simp at h
      | list l => rw [hm] at h; simp at h

/-- A successful run of the parse loop collects exactly the amended-claim
lines, in input order. -/
theorem parseFold_ok (entries : List (Option PyVal)) :
    ∀ (acc lines : List String),
      entries.foldlM parseFoldStep acc = .ok lines →
      lines = acc ++ entries.filterMap (fun oe => oe.bind claimC6AmendedLine) := by
  induction entries with
  | nil =>
    intro acc lines h
    simp only [List.foldlM_nil] at h
    cases h
    simp
  | cons oe rest ih =>
    intro acc lines h
    rw [List.foldlM_cons] at h
    cases oe with
    | none =>
      have h' : rest.foldlM parseFoldStep acc = .ok lines := h
      simpa using ih acc lines h'
    | some e =>
      cases hp : parseLine e with
      | error err =>
        have : parseFoldStep acc (some e) = .error err := by
          simp [parseFoldStep, Bind.bind, Except.bind, hp]
        rw [this] at h
        simp [Bind.bind, Except.bind] at h
      | ok r =>
        have hr := parseLine_ok e r hp
        cases r with
        | none =>
          have : parseFoldStep acc (some e) = .ok acc := by
            simp [parseFoldStep, Bind.bind, Except.bind, hp, pure, Except.pure]
          rw [this] at h
          have h' : rest.foldlM parseFoldStep acc = .ok lines := h
          simp [ih acc lines h', List.filterMap_cons, ← hr]
        | some l =>
          have : parseFoldStep acc (some e) = .ok (acc ++ [l]) := by
            simp [parseFoldStep, Bind.bind, Except.bind, hp, pure, Except.pure]
          rw [this] at h
          have h' : rest.foldlM parseFoldStep (acc ++ [l]) = .ok lines := h
          simp [ih (acc ++ [l]) lines h', List.filterMap_cons, ← hr]

/-- Claim C6 as stated is FALSE on the code: a `user` record whose content
block list is empty is dropped by the parser (it yields no text), while the
claim's rule — emit every record whose role is `user`/`assistant` —
predicts the line `"[user]: "`. -/
theorem c6_counterexample :
    parse_jsonl_session_content
        [some (.dict [("message",
          .dict [("role", .str "user"), ("content", .list [])])])] = .ok "" ∧
      claimC6StatedOutput
        [some (.dict [("message",
          .dict [("role", .str "user"), ("content", .list [])])])] = "[user]: " ∧
      ("" : String) ≠ "[user]: " := by
  decide

/-- Claim C6 amended: whenever the parser succeeds, it emits exactly — and
in original input order — the `user`/`assistant` records that yield text
(an inline string content, even empty; or a block list with at least one
non-empty text block) as `"[role]: joined-text"` lines, plus the
compaction/branch-summary records with non-empty extracted summary text as
`"[memory-summary]"` lines; all other records are dropped. -/
theorem c6_amended_parser_emission (entries : List (Option PyVal)) (s : String)
    (h : parse_jsonl_session_content entries = .ok s) :
    s = claimC6AmendedOutput entries := by
  unfold parse_jsonl_session_content at h
  cases hf : entries.foldlM parseFoldStep ([] : List String) with
  | error err =>
    rw [hf] at h
    simp [Bind.bind, Except.bind] at h
  | ok lines =>
    rw [hf] at h
    simp only [Bind.bind, Except.bind, pure, Except.pure, Except.ok.injEq] at h
    have := parseFold_ok entries [] lines hf
    simp only [List.nil_append] at this
    rw [← h, this, claimC6AmendedOutput]

theorem c6_amended_parser_emission_witness :
    ("[user]: Hello\n[memory-summary]: Resumen" : String) =
      claimC6AmendedOutput
        [some (.dict [("message", .dict [("role", .str "user"),
           ("content", .list [.dict [("type", .str "text"),
             ("text", .str " Hello ")]])])]),
         some (.dict [("message", .dict [("role", .str "toolResult"),
           ("content", .list [.dict [("type", .str "text"),
             ("text", .str "tool output")]])])]),
         some (.dict [("type", .str "compaction"),
           ("summary", .str "Resumen")])] :=
  c6_amended_parser_emission _ _ (by decide)

/-- Claim C9 as stated is FALSE on the code: a `user` record whose content
is the empty inline string yields no text, yet the parser emits the line
`"[user]: "` for it — the inline-string arm (rlm_bridge.py:279-281) appends
without any emptiness check. -/
theorem c9_counterexample :
    parse_jsonl_session_content
        [some (.dict [("message",
          .dict [("role", .str "user"), ("content", .str "")])])] =
      .ok "[user]: " ∧
      ("[user]: " : String) ≠ "" := by
  decide

/-- A block that contributes no text and raises nothing: not a text-typed
dict block, or one whose `text` field is a string with empty strip. -/
def blockYieldsNoText (b : PyVal) : Bool :=
  match b with
  | .dict bkvs =>
    if isStrEq (dget bkvs "type") "text" then
      match dgetD bkvs "text" (.str "") with
      | .str t => strTrim t = ""
      | _ => false
    else true
  | _ => true

/-- The text-block loop leaves the accumulator unchanged over blocks that
yield no text. -/
theorem blockFold_noText (blocks : List PyVal)
    (hb : ∀ b ∈ blocks, blockYieldsNoText b = true) :
    ∀ acc, blocks.foldlM blockStep acc = .ok acc := by
  induction blocks with
  | nil => intro acc; rfl
  | cons b bs ih =>
    intro acc
    have hstep : blockStep acc b = .ok acc := by
      have hb1 := hb b (by simp)
      cases b with
      | dict bkvs =>
        by_cases ht : isStrEq (dget bkvs "type") "text"
        · cases htx : dgetD bkvs "text" (.str "") with
          | str t =>
            have : strTrim t = "" := by
              simpa [blockYieldsNoText, ht, htx] using hb1
            simp [blockStep, ht, htx, this]
          | num q => simp [blockYieldsNoText, ht, htx] at hb1
          | bool c => simp [blockYieldsNoText, ht, htx] at hb1
          | none => simp [blockYieldsNoText, ht, htx] at hb1
          | list l => simp [blockYieldsNoText, ht, htx] at hb1
          | dict d => simp [blockYieldsNoText, ht, htx] at hb1
        · simp [blockStep, ht]
      | str s => simp [blockStep]
      | num q => simp [blockStep]
      | bool c => simp [blockStep]
      | none => simp [blockStep]
      | list l => simp [blockStep]
    rw [List.foldlM_cons, hstep]
    simpa [Bind.bind, Except.bind] using ih (fun x hx => hb x (by simp [hx])) acc

/-- Claim C9 amended: a `user`/`assistant` record whose content blocks
contain no non-empty text-typed block produces no output line (first
conjunct); but a record whose content is an inline string is always
emitted — as `"[role]: content"` — even when the string is empty (second
conjunct), so "emitted only if it yields non-empty text" holds for
block-shaped content and fails for inline-string content. -/
theorem c9_amended_empty_records :
    (∀ (role : String) (blocks : List PyVal),
       (role = "user" ∨ role = "assistant") →
       (∀ b ∈ blocks, blockYieldsNoText b = true) →
       parseLine (.dict [("message", .dict [("role", .str role),
         ("content", .list blocks)])]) = .ok Option.none) ∧
    (∀ (role s : String),
       (role = "user" ∨ role = "assistant") →
       parseLine (.dict [("message", .dict [("role", .str role),
         ("content", .str s)])]) =
           .ok (some ("[" ++ role ++ "]: " ++ s))) := by
  constructor
  · intro role blocks hrole hb
    have hfold := blockFold_noText blocks hb []
    rcases hrole with h1 | h1 <;> subst h1 <;>
      simp [parseLine, dget, dgetD, dictFind, pyOr, pyTruthy, pyStrOf, strTrim,
        strLower, isStrEq, Bind.bind, Except.bind, hfold]
  · intro role s hrole
    rcases hrole with h1 | h1 <;> subst h1 <;>
      simp [parseLine, dget, dgetD, dictFind, pyOr, pyTruthy, pyStrOf, strTrim,
        strLower, isStrEq]

theorem c9_amended_empty_records_witness :
    parseLine (.dict [("message", .dict [("role", .str "user"),
        ("content", .list [.dict [("type", .str "image")]])])]) =
      .ok Option.none :=
  c9_amended_empty_records.1 "user" [.dict [("type", .str "image")]]
    (Or.inl rfl) (by decide)

/-! ## Claim C8: pricing resolution -/

/-- `List.isPrefixOf` on characters is transitive. -/
theorem charPrefix_trans : ∀ (p q m : List Char), p.isPrefixOf q = true →
    q.isPrefixOf m = true → p.isPrefixOf m = true := by
  intro p
  induction p with
  | nil => intro q m _ _; cases m <;> rfl
  | cons a as ih =>
    intro q m hpq hqm
    cases q with
    | nil => simp [List.isPrefixOf] at hpq
    | cons b bs =>
      cases m with
      | nil => simp [List.isPrefixOf] at hqm
      | cons c cs =>
        simp only [List.isPrefixOf, Bool.and_eq_true, beq_iff_eq] at hpq hqm ⊢
        exact ⟨hpq.1.trans hqm.1, ih bs cs hpq.2 hqm.2⟩

/-- Two character prefixes of the same list are comparable: the shorter is
a prefix of the longer. -/
theorem charPrefix_of_prefix_le : ∀ (p q m : List Char), p.isPrefixOf m = true →
    q.isPrefixOf m = true → p.length ≤ q.length → p.isPrefixOf q = true := by
  intro p
  induction p with
  | nil => intro q m _ _ _; cases q <;> rfl
  | cons a as ih =>
    intro q m hpm hqm hlen
    cases q with
    | nil => simp at hlen
    | cons b bs =>
      cases m with
      | nil => simp [List.isPrefixOf] at hpm
      | cons c cs =>
        simp only [List.isPrefixOf, Bool.and_eq_true, beq_iff_eq] at hpm hqm ⊢
        exact ⟨hpm.1.trans hqm.1.symm, ih bs cs hpm.2 hqm.2 (by simpa using hlen)⟩

/-- Two known model names that are not prefix-comparable cannot both be
prefixes of the same model name. -/
theorem pyStartsWith_excl (m a b : String) (hlen : a.data.length ≤ b.data.length)
    (hnp : a.data.isPrefixOf b.data = false)
    (ha : pyStartsWith m a = true) (hb : pyStartsWith m b = true) : False := by
  have := charPrefix_of_prefix_le a.data b.data m.data ha hb hlen
  rw [this] at hnp
  cases hnp

/-- In the static price table, Python's first-match prefix scan coincides
with the claim's longest-known-prefix resolution (and both defer to an
exact match first): the only prefix-comparable pair of known names is
`kimi-k2-turbo` / `kimi-k2-turbo-preview`, and the longer one is scanned
first. -/
theorem resolve_eq_longest (m : String) :
    _resolve_model_pricing m = resolvePricingByLongestKnownName m := by
  have excl : ∀ (a b : String), a.data.length ≤ b.data.length →
      a.data.isPrefixOf b.data = false →
      pyStartsWith m a = true → pyStartsWith m b = true → False :=
    fun a b h1 h2 ha hb => pyStartsWith_excl m a b h1 h2 ha hb
  unfold _resolve_model_pricing resolvePricingByLongestKnownName
  cases hex : MODEL_PRICING_USD_PER_1M.find? (fun kv => kv.1 = m) with
  | some kv => rfl
  | none =>
    by_cases h25 : pyStartsWith m "kimi-k2.5" = true
    · have hA : pyStartsWith m "kimi-k2-turbo-preview" = false := by
        cases hx : pyStartsWith m "kimi-k2-turbo-preview" with
        | false => rfl
        | true =>
          exact (excl "kimi-k2.5" "kimi-k2-turbo-preview"
            (by decide) (by decide) h25 hx).elim
      have hB : pyStartsWith m "kimi-k2-turbo" = false := by
        cases hx : pyStartsWith m "kimi-k2-turbo" with
        | false => rfl
        | true =>
          exact (excl "kimi-k2.5" "kimi-k2-turbo"
            (by decide) (by decide) h25 hx).elim
      have hC : pyStartsWith m "kimi-k2-thinking-turbo" = false := by
        cases hx : pyStartsWith m "kimi-k2-thinking-turbo" with
        | false => rfl
        | true =>
          exact (excl "kimi-k2.5" "kimi-k2-thinking-turbo"
            (by decide) (by decide) h25 hx).elim
      simp [ MODEL_PRICING_USD_PER_1M, h25, hA, hB, hC]
    · have h25f : pyStartsWith m "kimi-k2.5" = false := by
        simpa using h25
      by_cases hp : pyStartsWith m "kimi-k2-turbo-preview" = true
      · have ht : pyStartsWith m "kimi-k2-turbo" = true :=
          charPrefix_trans _ _ _ (by decide) hp
        have hC : pyStartsWith m "kimi-k2-thinking-turbo" = false := by
          cases hx : pyStartsWith m "kimi-k2-thinking-turbo" with
          | false => rfl
          | true =>
            exact (excl "kimi-k2-turbo" "kimi-k2-thinking-turbo"
              (by decide) (by decide) ht hx).elim
        simp [ MODEL_PRICING_USD_PER_1M, h25f, hp, ht, hC]
        rw [if_neg (by decide)]
        rfl
      · have hpf : pyStartsWith m "kimi-k2-turbo-preview" = false := by
          simpa using hp
        by_cases ht : pyStartsWith m "kimi-k2-turbo" = true
        · have hC : pyStartsWith m "kimi-k2-thinking-turbo" = false := by
            cases hx : pyStartsWith m "kimi-k2-thinking-turbo" with
            | false => rfl
            | true =>
              exact (excl "kimi-k2-turbo" "kimi-k2-thinking-turbo"
                (by decide) (by decide) ht hx).elim
          simp [ MODEL_PRICING_USD_PER_1M, h25f, hpf, ht, hC]
        · have htf : pyStartsWith m "kimi-k2-turbo" = false := by
            simpa using ht
          by_cases hth : pyStartsWith m "kimi-k2-thinking-turbo" = true
          · simp [ MODEL_PRICING_USD_PER_1M, h25f, hpf, htf, hth]
          · have hthf : pyStartsWith m "kimi-k2-thinking-turbo" = false := by
              simpa using hth
            simp [ MODEL_PRICING_USD_PER_1M, h25f, hpf, htf, hthf]

/-- Whether the token-counter extraction of one stats dict succeeds (its
`or`-chains hand `int()` a convertible value). -/
def statsWF (skvs : List (String × PyVal)) : Bool :=
  (pyInt (input_tokens_val skvs)).isOk && (pyInt (output_tokens_val skvs)).isOk

/-- Whether `estimate_usage_cost` can traverse the usage summary without an
exception: each per-model stats value is either not a dict (skipped) or has
extractable token counters.  Model-name pricing resolution itself never
raises, whatever the model name — the point of claim C8. -/
def usageWF (usage_summary : PyVal) : Bool :=
  match usage_summary with
  | .dict kvs =>
    match dgetD kvs "model_usage_summaries" (.dict []) with
    | .dict mu => mu.all (fun kv =>
        match kv.2 with
        | .dict skvs => statsWF skvs
        | _ => true)
    | _ => true
  | _ => !(pyTruthy usage_summary)

/-- A per-model entry whose tokens extract never fails — whatever the model
name resolves to. -/
theorem modelEntry_ok_of_wf (name : String) (v : PyVal)
    (h : (match v with | .dict skvs => statsWF skvs | _ => true) = true) :
    ∃ r, modelEntry name v = .ok r := by
  cases v with
  | dict skvs =>
    simp only [statsWF, Bool.and_eq_true] at h
    cases hi : pyInt (input_tokens_val skvs) with
    | error e => rw [hi] at h; simp [Except.isOk, Except.toBool] at h
    | ok i =>
      cases ho : pyInt (output_tokens_val skvs) with
      | error e => rw [ho] at h; simp [Except.isOk, Except.toBool] at h
      | ok o =>
        cases hr : _resolve_model_pricing name with
        | none =>
          exact ⟨some (⟨i, o, Option.none, Option.none, 0, "unknown_model"⟩, 0),
            by simp [modelEntry, Bind.bind, Except.bind, hi, ho, hr]⟩
        | some pricing =>
          refine ⟨some (⟨i, o, some pricing.prompt, some pricing.completion,
              round6 ((i : ℚ) / 1000000 * pricing.prompt
                + (o : ℚ) / 1000000 * pricing.completion),
              "moonshot_docs_forum_feb_2026"⟩,
              (i : ℚ) / 1000000 * pricing.prompt
                + (o : ℚ) / 1000000 * pricing.completion), ?_⟩
          simp [modelEntry, Bind.bind, Except.bind, hi, ho, hr]
  | str s => exact ⟨_, rfl⟩
  | num q => exact ⟨_, rfl⟩
  | bool b => exact ⟨_, rfl⟩
  | none => exact ⟨_, rfl⟩
  | list l => exact ⟨_, rfl⟩

/-- The estimate's per-model loop never fails over well-formed usage. -/
theorem estFold_ok (mu : List (String × PyVal))
    (h : ∀ kv ∈ mu, (match kv.2 with
        | PyVal.dict skvs => statsWF skvs
        | _ => true) = true) :
    ∀ acc, ∃ res, mu.foldlM estStep acc = .ok res := by
  induction mu with
  | nil => intro acc; exact ⟨acc, rfl⟩
  | cons kv rest ih =>
    intro acc
    obtain ⟨r, hr⟩ := modelEntry_ok_of_wf kv.1 kv.2 (h kv (by simp))
    have hstep : ∃ acc', estStep acc kv = .ok acc' := by
      cases r with
      | none => exact ⟨acc, by simp [estStep, Bind.bind, Except.bind, hr, pure, Except.pure]⟩
      | some p =>
        exact ⟨(acc.1 ++ [(kv.1, p.1)], acc.2 + p.2),
          by simp [estStep, Bind.bind, Except.bind, hr, pure, Except.pure]⟩
    obtain ⟨acc', hacc⟩ := hstep
    obtain ⟨res, hres⟩ := ih (fun x hx => h x (by simp [hx])) acc'
    refine ⟨res, ?_⟩
    rw [List.foldlM_cons, hacc]
    simpa [Bind.bind, Except.bind] using hres

/-- Claim C8: (1) pricing resolution is by exact name match first, else by
the longest known-name-prefix match against the static price table; (2) a
model name that matches neither way yields a `by_model` entry marked
`unknown_model` with estimated cost 0.0 (and contributes nothing to the
total); (3) the overall estimate call never fails, whatever the model
names, over any usage summary whose token counters are extractable. -/
theorem c8_pricing_resolution :
    (∀ m : String,
       _resolve_model_pricing m = resolvePricingByLongestKnownName m) ∧
    (∀ (name : String) (skvs : List (String × PyVal)) (i o : Int),
       pyInt (input_tokens_val skvs) = .ok i →
       pyInt (output_tokens_val skvs) = .ok o →
       _resolve_model_pricing name = Option.none →
       modelEntry name (.dict skvs) =
         .ok (some (⟨i, o, Option.none, Option.none, 0, "unknown_model"⟩, 0))) ∧
    (∀ usage_summary : PyVal, usageWF usage_summary = true →
       ∃ out, estimate_usage_cost usage_summary = .ok out) := by
  refine ⟨resolve_eq_longest, ?_, ?_⟩
  · intro name skvs i o hi ho hr
    simp [modelEntry, Bind.bind, Except.bind, hi, ho, hr]
  · intro usage_summary hwf
    cases usage_summary with
    | dict kvs =>
      by_cases htr : pyTruthy (.dict kvs) = true
      · simp only [usageWF] at hwf
        cases hmu : dgetD kvs "model_usage_summaries" (.dict []) with
        | dict mu =>
          rw [hmu] at hwf
          simp only [List.all_eq_true] at hwf
          obtain ⟨res, hres⟩ :=
            estFold_ok mu (fun kv hkv => hwf kv hkv) ([], 0)
          by_cases hre : res.1.isEmpty
          · refine ⟨.empty, ?_⟩
            simp [estimate_usage_cost, Bind.bind, Except.bind, htr, hmu,
              hres, hre, pure, Except.pure]
          · refine ⟨.result (round6 res.2) res.1, ?_⟩
            simp [estimate_usage_cost, Bind.bind, Except.bind, htr, hmu,
              hres, hre, pure, Except.pure]
        | str s =>
          exact ⟨.empty, by simp [estimate_usage_cost, Bind.bind, Except.bind,
            htr, hmu, pure, Except.pure]⟩
        | num q =>
          exact ⟨.empty, by simp [estimate_usage_cost, Bind.bind, Except.bind,
            htr, hmu, pure, Except.pure]⟩
        | bool b =>
          exact ⟨.empty, by simp [estimate_usage_cost, Bind.bind, Except.bind,
            htr, hmu, pure, Except.pure]⟩
        | none =>
          exact ⟨.empty, by simp [estimate_usage_cost, Bind.bind, Except.bind,
            htr, hmu, pure, Except.pure]⟩
        | list l =>
          exact ⟨.empty, by simp [estimate_usage_cost, Bind.bind, Except.bind,
            htr, hmu, pure, Except.pure]⟩
      · have hfalse : pyTruthy (.dict kvs) = false := by simpa using htr
        have hkvs : kvs = [] := by
          simpa [pyTruthy] using hfalse
        subst hkvs
        exact ⟨.empty, by decide⟩
    | str s =>
      have : pyTruthy (.str s) = false := by simpa [usageWF] using hwf
      exact ⟨.empty, by simp [estimate_usage_cost, Bind.bind, Except.bind,
        this, pure, Except.pure]⟩
    | num q =>
      have : pyTruthy (.num q) = false := by simpa [usageWF] using hwf
      exact ⟨.empty, by simp [estimate_usage_cost, Bind.bind, Except.bind,
        this, pure, Except.pure]⟩
    | bool b =>
      have : pyTruthy (.bool b) = false := by simpa [usageWF] using hwf
      exact ⟨.empty, by simp [estimate_usage_cost, Bind.bind, Except.bind,
        this, pure, Except.pure]⟩
    | none =>
      exact ⟨.empty, by decide⟩
    | list l =>
      have : pyTruthy (.list l) = false := by simpa [usageWF] using hwf
      exact ⟨.empty, by simp [estimate_usage_cost, Bind.bind, Except.bind,
        this, pure, Except.pure]⟩

theorem c8_pricing_resolution_witness :
    _resolve_model_pricing "mystery-model" = Option.none ∧
      modelEntry "mystery-model" (.dict []) =
        .ok (some (⟨0, 0, Option.none, Option.none, 0, "unknown_model"⟩, 0)) :=
  ⟨by decide,
    c8_pricing_resolution.2.1 "mystery-model" [] 0 0 (by decide) (by decide)
      (by decide)⟩

/-- Every part the dated-note loop emits comes from its input list. -/
theorem dailyGo_mem (limit : Int) :
    ∀ (files : List (String × String)) (dc : Int) (s : String),
      s ∈ dailyGo limit dc files → ∃ p ∈ files, s = dailyPart p.1 p.2 := by
  intro files
  induction files with
  | nil => intro dc s hs; simp [dailyGo] at hs
  | cons f rest ih =>
    intro dc s hs
    by_cases h1 : strTrim f.2 = "" ∨ f.2.length < 20
    · rw [show dailyGo limit dc (f :: rest) = dailyGo limit dc rest by
        simp [dailyGo, h1]] at hs
      obtain ⟨p, hp, hs⟩ := ih dc s hs
      exact ⟨p, by simp [hp], hs⟩
    · by_cases h2 : limit < dc + (f.2.length : Int)
      · rw [show dailyGo limit dc (f :: rest) = [] by simp [dailyGo, h1, h2]] at hs
        simp at hs
      · rw [show dailyGo limit dc (f :: rest) =
            dailyPart f.1 f.2 :: dailyGo limit (dc + f.2.length) rest by
          simp [dailyGo, h1, h2]] at hs
        rcases List.mem_cons.mp hs with hs | hs
        · exact ⟨f, by simp, hs⟩
        · obtain ⟨p, hp, hs⟩ := ih (dc + f.2.length) s hs
          exact ⟨p, by simp [hp], hs⟩

/-- The dated-note loop emits at most one part per input file. -/
theorem dailyGo_length (limit : Int) :
    ∀ (files : List (String × String)) (dc : Int),
      (dailyGo limit dc files).length ≤ files.length := by
  intro files
  induction files with
  | nil => intro dc; simp [dailyGo]
  | cons f rest ih =>
    intro dc
    by_cases h1 : strTrim f.2 = "" ∨ f.2.length < 20
    · rw [show dailyGo limit dc (f :: rest) = dailyGo limit dc rest by
        simp [dailyGo, h1]]
      exact le_trans (ih dc) (by simp)
    · by_cases h2 : limit < dc + (f.2.length : Int)
      · rw [show dailyGo limit dc (f :: rest) = [] by simp [dailyGo, h1, h2]]
        simp
      · rw [show dailyGo limit dc (f :: rest) =
            dailyPart f.1 f.2 :: dailyGo limit (dc + f.2.length) rest by
          simp [dailyGo, h1, h2]]
        simpa using ih (dc + f.2.length)

/-- Claim C10: the workspace loader appends, after the named workspace
parts, a list of dated-note parts numbering at most 30, each drawn from the
30 newest notes by stem-descending order; a dated note beyond the 30 newest
is never included, even when the daily character budget is not exhausted. -/
theorem c10_daily_top30 (named_parts : List String)
    (memory_files : List (String × String)) (daily_chars_limit : Int) :
    ∃ dailies : List String,
      load_workspace_sync named_parts memory_files daily_chars_limit =
        String.intercalate "\n\n" (named_parts ++ dailies) ∧
      dailies.length ≤ 30 ∧
      ∀ s ∈ dailies, ∃ p ∈ (sortByStemDesc memory_files).take 30,
        s = dailyPart p.1 p.2 := by
  refine ⟨dailyGo daily_chars_limit 0 ((sortByStemDesc memory_files).take 30),
    rfl, ?_, ?_⟩
  · exact le_trans
      (dailyGo_length daily_chars_limit ((sortByStemDesc memory_files).take 30) 0)
      (List.length_take_le 30 (sortByStemDesc memory_files))
  · intro s hs
    exact dailyGo_mem daily_chars_limit _ 0 s hs

theorem c10_daily_top30_witness :
    ∃ dailies : List String,
      load_workspace_sync ["=== MEMORY.md ===\nnotes"]
          [("2026-01-01", "aaaaaaaaaaaaaaaaaaaaaaaaa"),
           ("2026-01-02", "bbbbbbbbbbbbbbbbbbbbbbbbb")] 200000 =
        String.intercalate "\n\n" (["=== MEMORY.md ===\nnotes"] ++ dailies) ∧
      dailies.length ≤ 30 ∧
      ∀ s ∈ dailies, ∃ p ∈ (sortByStemDesc
          [("2026-01-01", "aaaaaaaaaaaaaaaaaaaaaaaaa"),
           ("2026-01-02", "bbbbbbbbbbbbbbbbbbbbbbbbb")]).take 30,
        s = dailyPart p.1 p.2 :=
  c10_daily_top30 ["=== MEMORY.md ===\nnotes"]
    [("2026-01-01", "aaaaaaaaaaaaaaaaaaaaaaaaa"),
     ("2026-01-02", "bbbbbbbbbbbbbbbbbbbbbbbbb")] 200000
